import Mathlib

/-!
Verification of the `vk-rs` Vulkan binding generator (crate `vk_generator`).

Each Rust item referenced by a claim is shallowly embedded as a Lean
definition; machine integers are modelled as `Nat` with explicit `% 2 ^ w`
where the Rust type is a `w`-bit unsigned integer, raw `*const str` names are
modelled as `Option String` (`none` standing for the null pointer produced by
`null_str()`), and a Rust `panic!` / `unwrap` failure is modelled by an
`Option`-typed result whose `none` means the program aborted.
-/

namespace VkRs

/-! ## Bitmask wrappers

From the `vk_bitflags_wrapped` macro in
`src/vk_generator/src/generator/prelude_common.rs`.  A generated wrapper type
holds `flags: $flag_type` for a `w`-bit unsigned `$flag_type` and a constant
`$all : $flag_type`; we model a wrapper value as a `Nat` (kept below `2 ^ w`)
and pass `all` (and, where Rust uses the primitive `!` complement, the bit
width `w`) explicitly. -/

structure Bitmask where
  flags : Nat
deriving DecidableEq, Repr

namespace Bitmask

/-- Rust: `pub fn empty() -> Self { $name {flags: 0} }` -/
def empty : Bitmask := ⟨0⟩

/-- Rust: `pub fn all() -> Self { $name {flags: $all} }` -/
def allValue (all : Nat) : Bitmask := ⟨all⟩

/-- Rust: `pub fn from_flags(flags) -> Option<Self>`: `if flags & !$all == 0
{ Some($name {flags}) } else { None }`.  Rust's `!` on a `w`-bit unsigned
integer is complement within the width, i.e. xor with `2 ^ w - 1`. -/
def from_flags (w all flags : Nat) : Option Bitmask :=
  if flags &&& ((2 ^ w - 1) ^^^ all) = 0 then some ⟨flags⟩ else none

/-- Rust: `pub fn from_flags_truncate(flags) -> Self { $name {flags: flags & $all} }` -/
def from_flags_truncate (all flags : Nat) : Bitmask :=
  ⟨flags &&& all⟩

/-- Rust: `impl BitOr`: `$name {flags: self.flags | rhs.flags}` -/
def bitor (a b : Bitmask) : Bitmask := ⟨a.flags ||| b.flags⟩

/-- Rust: `impl BitAnd`: `$name {flags: self.flags & rhs.flags}` -/
def bitand (a b : Bitmask) : Bitmask := ⟨a.flags &&& b.flags⟩

/-- Rust: `impl BitXor`: `$name {flags: self.flags ^ rhs.flags}` -/
def bitxor (a b : Bitmask) : Bitmask := ⟨a.flags ^^^ b.flags⟩

/-- Rust: `impl Not`: `self ^ Self::all()` (xor with the wrapper's `all`
constant, not the primitive complement). -/
def bmnot (all : Nat) (a : Bitmask) : Bitmask := a.bitxor (allValue all)

/-- Rust: `impl Sub`: `self & !rhs` (using the wrapper's `Not`). -/
def sub (all : Nat) (a b : Bitmask) : Bitmask := a.bitand (bmnot all b)

end Bitmask

/-! ## Hard-coded version define macros

From `src/vk_generator/src/generator/defines.rs`; all arithmetic is on
`uint32_t`, modelled as `Nat` reduced `% 2 ^ 32` wherever the Rust code casts
or produces a 32-bit result. -/

/-- Cast to `uint32_t`. -/
def uint32 (n : Nat) : Nat := n % 2 ^ 32

/-- Rust: `vk_make_version!(major, minor, patch)` =
`(($major as uint32_t) << 22) | (($minor as uint32_t) << 12) | $patch as uint32_t`. -/
def vk_make_version (major minor patch : Nat) : Nat :=
  uint32 (uint32 major <<< 22) ||| (uint32 (uint32 minor <<< 12) ||| uint32 patch)

/-- Rust: `vk_version_major!(v)` = `($major as uint32_t) >> 22`. -/
def vk_version_major (v : Nat) : Nat := uint32 v >>> 22

/-- Rust: `vk_version_minor!(v)` = `(($minor as uint32_t) >> 12) & 0x3ff`. -/
def vk_version_minor (v : Nat) : Nat := (uint32 v >>> 12) &&& 0x3ff

/-- Rust: `vk_version_patch!(v)` = `($minor as uint32_t) & 0xfff`. -/
def vk_version_patch (v : Nat) : Nat := uint32 v &&& 0xfff

/-! ## Registry model

From `src/vk_generator/src/registry/mod.rs`.  A raw `*const str` is modelled
as `Option String`, `none` standing for `null_str()`; the unsafe `&*p`
dereference of a possibly-null pointer is partial, and both it and a Rust
`panic!`/`unwrap` failure are modelled by a `none` result of the enclosing
operation. -/

/-- Rust: `VkElType` (registry/mod.rs). -/
inductive VkElType where
  | var (s : Option String)
  | const (s : Option String)
  | constPtr (s : Option String) (count : Nat)
  | mutPtr (s : Option String) (count : Nat)
  | constArray (s : Option String) (size : Nat)
  | mutArray (s : Option String) (size : Nat)
  | constArrayEnum (s : Option String) (e : Option String)
  | mutArrayEnum (s : Option String) (e : Option String)
  | void
  | unknown
deriving DecidableEq, Repr

/-- Rust: `VkElType::make_const`; `none` models the `panic!` branches
("Attempted changing mutability of pointer" / "... of array"). -/
def VkElType.make_const : VkElType → Option VkElType
  | .var s => some (.const s)
  | .const s => some (.const s)
  | .constPtr _ _ => none
  | .mutPtr _ _ => none
  | .constArray _ _ => none
  | .constArrayEnum _ _ => none
  | .mutArray _ _ => none
  | .mutArrayEnum _ _ => none
  | .void => some (.const none)
  | .unknown => some (.const none)

/-- Rust: `VkMember` (registry/mod.rs). -/
structure VkMember where
  field_type : VkElType
  field_name : Option String
  optional : Bool
deriving DecidableEq, Repr

/-- Rust: `VkVariant` (registry/mod.rs); `isize` values become `Int`, the `u32`
bitpos becomes `Nat`. -/
inductive VkVariant where
  | value (name : Option String) (val : Int)
  | bitpos (name : Option String) (pos : Nat)
deriving DecidableEq, Repr

/-- Rust: `VkType` (registry/mod.rs). -/
inductive VkType where
  | struct (name : Option String) (fields : List VkMember)
  | union (name : Option String) (variants : List VkMember)
  | enum (name : Option String) (variants : List VkVariant)
  | bitmask (name : Option String) (variants : List VkVariant)
  | handle (name : Option String) (dispatchable : Bool)
  | typeDef (typ : Option String) (name : Option String) (requires : Option String)
  | apiConst (name : Option String) (value : Option String)
  | define (name : Option String)
  | funcPointer (name : Option String) (ret : VkElType) (params : List VkElType)
  | externType (name : Option String) (requires : Option String)
  | unhandled
deriving DecidableEq, Repr

/-- Rust: `VkType::name`: `Some(name)` for every variant except `Unhandled`. -/
def VkType.namePtr : VkType → Option (Option String)
  | .struct n _ => some n
  | .union n _ => some n
  | .enum n _ => some n
  | .bitmask n _ => some n
  | .handle n _ => some n
  | .typeDef _ n _ => some n
  | .apiConst n _ => some n
  | .define n => some n
  | .funcPointer n _ _ => some n
  | .externType n _ => some n
  | .unhandled => none

/-- Rust: `VkParam` (registry/mod.rs). -/
structure VkParam where
  typ : VkElType
  name : Option String
deriving DecidableEq, Repr

/-- Rust: `VkCommand` (registry/mod.rs). -/
structure VkCommand where
  ret : VkElType
  name : Option String
  params : List VkParam
deriving DecidableEq, Repr

/-- Rust: `HashMap::insert` on a map modelled as its lookup function. -/
def mapInsert {β : Type} (k : String) (v : β) (m : String → Option β) :
    String → Option β :=
  fun x => if x = k then some v else m x

/-- The collections of `VkRegistry` that the builder operations below touch
(the string buffer is modelled separately as `Arena`, and the feature and
extension maps are untouched by these claims). -/
structure Registry where
  types : String → Option VkType
  core_consts : List String
  commands : String → Option VkCommand

def Registry.empty : Registry := ⟨fun _ => none, [], fun _ => none⟩

/-- Rust: `VkRegistry::push_type`.  The `ApiConst` pre-pass pushes the dereferenced
name onto `core_consts`; then `Unhandled` is rejected, the sentinel
`"API Constants"` name is rejected, and everything else is inserted into the
types map under its name.  `none` models aborting (a null-name dereference or
the `name().unwrap()` panic). -/
def pushType (r : Registry) (t : VkType) : Option (Registry × Bool) :=
  let r1? : Option Registry :=
    match t with
    | .apiConst name _ =>
      match name with
      | none => none
      | some n => some {r with core_consts := r.core_consts ++ [n]}
    | _ => some r
  match r1? with
  | none => none
  | some r1 =>
    match t with
    | .unhandled => some (r1, false)
    | _ =>
      match t.namePtr with
      | none => none
      | some none => none
      | some (some n) =>
        if n = "API Constants" then some (r1, false)
        else some ({r1 with types := mapInsert n t r1.types}, true)

/-- The `while VkElType::Unknown == cmd.params.last().unwrap().typ
{ cmd.params.pop(); }` loop of `push_command`; `none` models the `unwrap`
panic when the parameter list is (or becomes) empty. -/
def popTrailingUnknown (ps : List VkParam) : Option (List VkParam) :=
  if h : ps = [] then none
  else if (ps.getLast h).typ = VkElType.unknown then popTrailingUnknown ps.dropLast
  else some ps
termination_by ps.length
decreasing_by
  simp only [List.length_dropLast]
  have := List.length_pos.mpr h
  omega

/-- Rust: `VkRegistry::push_command`: `None` is rejected with a discardable failure;
a present command first has its trailing `Unknown` parameters popped (panic
if the list empties), then is inserted into the commands map under its
dereferenced name. -/
def pushCommand (r : Registry) (c : Option VkCommand) : Option (Registry × Bool) :=
  match c with
  | none => some (r, false)
  | some cmd =>
    match popTrailingUnknown cmd.params with
    | none => none
    | some ps =>
      match cmd.name with
      | none => none
      | some n =>
        some ({r with commands := mapInsert n {cmd with params := ps} r.commands},
              true)

/-! ## String arena

`VkRegistry::new` reserves `String::with_capacity(vk_xml.len())` for
`string_buffer`; `VkRegistry::append_str` pushes onto it and panics if the
push changed the buffer's capacity (i.e. forced a reallocation). -/

/-- The string buffer with its reserved capacity; bytes are the elements of
the `List Char`. -/
structure Arena where
  cap : Nat
  buf : List Char
deriving DecidableEq, Repr

/-- The buffer as created by `VkRegistry::new(vk_xml)`. -/
def Arena.init (xmlLen : Nat) : Arena := ⟨xmlLen, []⟩

/-- Rust: `VkRegistry::append_str`: push `s`; if that grew the buffer past its
reserved capacity the `String` reallocated and the function panics (`none`);
otherwise return the new buffer together with the offset and length of the
appended bytes — the returned `*const str` view. -/
def Arena.append_str (a : Arena) (s : List Char) : Option (Arena × Nat × Nat) :=
  let buf := a.buf ++ s
  if a.cap < buf.length then none
  else some (⟨a.cap, buf⟩, a.buf.length, s.length)

/-- Reading a returned view `(off, len)`: the bytes of the buffer at
positions `off ≤ i < off + len`. -/
def Arena.readView (a : Arena) (off len : Nat) : List Char :=
  (a.buf.drop off).take len

/-- A sequence of `append_str` calls, collecting the returned views. -/
def Arena.appendAll (a : Arena) : List (List Char) → Option (Arena × List (Nat × Nat))
  | [] => some (a, [])
  | s :: ss =>
    match a.append_str s with
    | none => none
    | some (a1, off, len) =>
      match a1.appendAll ss with
      | none => none
      | some (af, vs) => some (af, (off, len) :: vs)

/-! ## Generated loaders

From the `vk_struct_bindings` macro in
`src/vk_generator/src/generator/prelude_struct_gen.rs`.  A raw function
pointer is null, the `unloaded_function_panic` abort sentinel, or some
resolved address. -/

inductive RawPtr where
  | null
  | sentinel
  | addr (n : Nat)
deriving DecidableEq, Repr

/-- Rust: `Vk::load_with`: builds the `Vk` struct starting from
`mem::uninitialized()` and assigns each slot only when the resolver returns a
non-null pointer, so each slot ends up either written (`some`) or still
uninitialized memory (`none`).  The function returns the `Vk` value itself —
there is no success/unresolved-names result. -/
def load_with (names : List String) (resolver : String → RawPtr) :
    List (String × Option RawPtr) :=
  names.map fun n =>
    (n, if resolver n ≠ RawPtr.null then some (resolver n) else none)

/-- Rust: `Vk::reload_fns`: for each slot the resolver is called with the command's
raw name; a non-null result overwrites the slot, otherwise the slot is left
untouched and — reading the source's `$name::fn_ptr` as the slot's current
pointer — the name is recorded in the returned list when that pointer is not
the abort sentinel. -/
def reload_fns (slots : List (String × RawPtr)) (resolver : String → RawPtr) :
    List (String × RawPtr) × List String :=
  match slots with
  | [] => ([], [])
  | (n, old) :: rest =>
    let r := reload_fns rest resolver
    if resolver n ≠ RawPtr.null then ((n, resolver n) :: r.1, r.2)
    else if old ≠ RawPtr.sentinel then ((n, old) :: r.1, n :: r.2)
    else ((n, old) :: r.1, r.2)

/-- The `ApiConst` pre-pass of `push_type`: the registry after the
`core_consts.push` statement, for a type whose (dereferenced) name is `n`. -/
def pushTypeConsts (r : Registry) (t : VkType) (n : String) : Registry :=
  match t with
  | .apiConst _ _ => {r with core_consts := r.core_consts ++ [n]}
  | _ => r

/-! ### Helper lemmas on bits -/

theorem testBit_false_of_lt_pow {x w i : Nat} (hx : x < 2 ^ w) (hw : w ≤ i) :
    x.testBit i = false :=
  Nat.testBit_lt_two_pow (lt_of_lt_of_le hx (Nat.pow_le_pow_right (by norm_num) hw))

theorem land_eq_zero_iff {x y : Nat} :
    x &&& y = 0 ↔ ∀ i, ¬(x.testBit i = true ∧ y.testBit i = true) := by
  constructor
  · intro h i hi
    have := congrArg (fun t => Nat.testBit t i) h
    simp only [Nat.testBit_and, Nat.zero_testBit] at this
    rw [hi.1, hi.2] at this
    simp at this
  · intro h
    apply Nat.eq_of_testBit_eq
    intro i
    simp only [Nat.testBit_and, Nat.zero_testBit]
    by_cases hx : x.testBit i = true
    · by_cases hy : y.testBit i = true
      · exact absurd ⟨hx, hy⟩ (h i)
      · simp [hy]
    · simp [hx]

theorem sub_testBit (all : Nat) (a b : Bitmask)
    (ha : a.flags &&& all = a.flags) (i : Nat) (hi : a.flags.testBit i = true) :
    all.testBit i = true := by
  have h1 : (a.flags.testBit i && all.testBit i) = a.flags.testBit i := by
    rw [← Nat.testBit_and, ha]
  rw [hi] at h1
  simpa using h1

/-- C8: for two bitmask-wrapper values `a`, `b` of the same wrapper type whose
flag bits all lie within the type's `all` constant, `a | b` wraps exactly the
bitwise-or of their flag integers, and `a - b` wraps exactly the set
difference (`a`'s flags AND NOT `b`'s flags, bit by bit). -/
theorem bitmask_or_sub_spec (all : Nat) (a b : Bitmask)
    (ha : a.flags &&& all = a.flags) (hb : b.flags &&& all = b.flags) :
    (a.bitor b).flags = a.flags ||| b.flags ∧
    (∀ i, (Bitmask.sub all a b).flags.testBit i
            = (a.flags.testBit i && !(b.flags.testBit i))) := by
  refine ⟨rfl, fun i => ?_⟩
  show ((a.flags &&& (b.flags ^^^ all)).testBit i)
        = (a.flags.testBit i && !(b.flags.testBit i))
  rw [Nat.testBit_and, Nat.testBit_xor]
  cases hA : a.flags.testBit i
  · simp [hA]
  · have hall : all.testBit i = true := sub_testBit all a b ha i hA
    cases hB : b.flags.testBit i <;> simp [hA, hB, hall]

theorem bitmask_or_sub_spec_holds :
    (Bitmask.mk 5).flags &&& 7 = (Bitmask.mk 5).flags ∧
    (Bitmask.mk 3).flags &&& 7 = (Bitmask.mk 3).flags ∧
    ((Bitmask.bitor ⟨5⟩ ⟨3⟩).flags = 5 ||| 3 ∧
      ∀ i, (Bitmask.sub 7 ⟨5⟩ ⟨3⟩).flags.testBit i
             = ((5 : Nat).testBit i && !((3 : Nat).testBit i))) :=
  ⟨by decide, by decide,
    bitmask_or_sub_spec 7 ⟨5⟩ ⟨3⟩ (by decide) (by decide)⟩

/-- C10: for every flag integer `f` of the `w`-bit flag type, `from_flags f`
returns `Some` exactly when `f` has no bits outside the `all` constant, in
which case the wrapped value's flag integer equals `f`; and
`from_flags_truncate f` always succeeds and wraps exactly `f AND all`. -/
theorem from_flags_spec (w all f : Nat) (hall : all < 2 ^ w) (hf : f < 2 ^ w) :
    ((Bitmask.from_flags w all f).isSome
        ↔ ∀ i, f.testBit i = true → all.testBit i = true) ∧
    (∀ g, Bitmask.from_flags w all f = some g → g.flags = f) ∧
    (Bitmask.from_flags_truncate all f).flags = f &&& all := by
  refine ⟨?_, ?_, rfl⟩
  · unfold Bitmask.from_flags
    by_cases h : f &&& ((2 ^ w - 1) ^^^ all) = 0
    · rw [if_pos h]
      simp only [Option.isSome_some, true_iff]
      intro i hi
      rw [land_eq_zero_iff] at h
      by_contra hni
      refine h i ⟨hi, ?_⟩
      have hiw : i < w := by
        by_contra hge
        rw [testBit_false_of_lt_pow hf (le_of_not_lt hge)] at hi
        exact absurd hi (by simp)
      rw [Nat.testBit_xor, Nat.testBit_two_pow_sub_one]
      simp [hiw, Bool.eq_false_iff.mpr hni]
    · rw [if_neg h]
      constructor
      · intro hfalse
        exact absurd hfalse (by simp)
      · intro hsub
        exfalso
        refine h (land_eq_zero_iff.mpr fun i hi => ?_)
        rcases hi with ⟨hfi, hmi⟩
        have hiw : i < w := by
          by_contra hge
          rw [testBit_false_of_lt_pow hf (le_of_not_lt hge)] at hfi
          exact absurd hfi (by simp)
        rw [Nat.testBit_xor, Nat.testBit_two_pow_sub_one, hsub i hfi] at hmi
        simp [hiw] at hmi
  · intro g hg
    unfold Bitmask.from_flags at hg
    by_cases h : f &&& ((2 ^ w - 1) ^^^ all) = 0
    · rw [if_pos h] at hg
      cases hg
      rfl
    · rw [if_neg h] at hg
      exact absurd hg (by simp)

theorem from_flags_spec_holds :
    (7 : Nat) < 2 ^ 4 ∧ (5 : Nat) < 2 ^ 4 ∧
    (((Bitmask.from_flags 4 7 5).isSome
        ↔ ∀ i, (5 : Nat).testBit i = true → (7 : Nat).testBit i = true) ∧
      (∀ g, Bitmask.from_flags 4 7 5 = some g → g.flags = 5) ∧
      (Bitmask.from_flags_truncate 7 5).flags = 5 &&& 7) :=
  ⟨by decide, by decide, from_flags_spec 4 7 5 (by decide) (by decide)⟩

/-- C9: for every `major < 2^10`, `minor < 2^10` and `patch < 2^12`, the
hard-coded define macros round-trip over 32-bit unsigned arithmetic:
`vk_version_major (vk_make_version major minor patch) = major`, and likewise
for the minor and patch fields. -/
theorem version_macros_roundtrip (mj mn p : Nat)
    (hmj : mj < 2 ^ 10) (hmn : mn < 2 ^ 10) (hp : p < 2 ^ 12) :
    vk_version_major (vk_make_version mj mn p) = mj ∧
    vk_version_minor (vk_make_version mj mn p) = mn ∧
    vk_version_patch (vk_make_version mj mn p) = p := by
  have hmj32 : mj < 2 ^ 32 := lt_of_lt_of_le hmj (by norm_num)
  have hmn32 : mn < 2 ^ 32 := lt_of_lt_of_le hmn (by norm_num)
  have hp32 : p < 2 ^ 32 := lt_of_lt_of_le hp (by norm_num)
  have hsl1 : mj <<< 22 < 2 ^ 32 := by
    rw [Nat.shiftLeft_eq]
    norm_num at hmj ⊢
    omega
  have hsl2 : mn <<< 12 < 2 ^ 32 := by
    rw [Nat.shiftLeft_eq]
    norm_num at hmn ⊢
    omega
  have hV : vk_make_version mj mn p = (mj <<< 22) ||| ((mn <<< 12) ||| p) := by
    unfold vk_make_version uint32
    rw [Nat.mod_eq_of_lt hmj32, Nat.mod_eq_of_lt hmn32, Nat.mod_eq_of_lt hp32,
        Nat.mod_eq_of_lt hsl1, Nat.mod_eq_of_lt hsl2]
  have hVlt : vk_make_version mj mn p < 2 ^ 32 := by
    rw [hV]
    exact Nat.or_lt_two_pow hsl1 (Nat.or_lt_two_pow hsl2 hp32)
  have hVbit : ∀ j, (vk_make_version mj mn p).testBit j
      = ((decide (22 ≤ j) && mj.testBit (j - 22))
          || ((decide (12 ≤ j) && mn.testBit (j - 12)) || p.testBit j)) := by
    intro j
    rw [hV]
    simp only [Nat.testBit_or, Nat.testBit_shiftLeft]
  refine ⟨?_, ?_, ?_⟩
  · unfold vk_version_major uint32
    rw [Nat.mod_eq_of_lt hVlt]
    apply Nat.eq_of_testBit_eq
    intro i
    rw [Nat.testBit_shiftRight, hVbit]
    have e1 : 22 + i - 22 = i := by omega
    have e2 : 22 + i - 12 = 10 + i := by omega
    rw [e1, e2, testBit_false_of_lt_pow hmn (show 10 ≤ 10 + i by omega),
        testBit_false_of_lt_pow hp (show 12 ≤ 22 + i by omega)]
    simp [show 22 ≤ 22 + i by omega, show 12 ≤ 22 + i by omega]
  · unfold vk_version_minor uint32
    rw [Nat.mod_eq_of_lt hVlt]
    apply Nat.eq_of_testBit_eq
    intro i
    rw [show (0x3ff : Nat) = 2 ^ 10 - 1 by norm_num, Nat.testBit_and,
        Nat.testBit_two_pow_sub_one, Nat.testBit_shiftRight, hVbit]
    rcases Nat.lt_or_ge i 10 with hi | hi
    · have e1 : 12 + i - 12 = i := by omega
      rw [e1, testBit_false_of_lt_pow hp (show 12 ≤ 12 + i by omega)]
      simp [show ¬(22 ≤ 12 + i) by omega, show 12 ≤ 12 + i by omega, hi]
    · rw [testBit_false_of_lt_pow hmn hi]
      simp [show ¬(i < 10) by omega]
  · unfold vk_version_patch uint32
    rw [Nat.mod_eq_of_lt hVlt]
    apply Nat.eq_of_testBit_eq
    intro i
    rw [show (0xfff : Nat) = 2 ^ 12 - 1 by norm_num, Nat.testBit_and,
        Nat.testBit_two_pow_sub_one, hVbit]
    rcases Nat.lt_or_ge i 12 with hi | hi
    · simp [show ¬(22 ≤ i) by omega, show ¬(12 ≤ i) by omega, hi]
    · rw [testBit_false_of_lt_pow hp hi]
      simp [show ¬(i < 12) by omega]

theorem version_macros_roundtrip_holds :
    (1 : Nat) < 2 ^ 10 ∧ (2 : Nat) < 2 ^ 10 ∧ (3 : Nat) < 2 ^ 12 ∧
    (vk_version_major (vk_make_version 1 2 3) = 1 ∧
      vk_version_minor (vk_make_version 1 2 3) = 2 ∧
      vk_version_patch (vk_make_version 1 2 3) = 3) :=
  ⟨by decide, by decide, by decide,
    version_macros_roundtrip 1 2 3 (by decide) (by decide) (by decide)⟩

/-- C6 counterexample: applying `make_const` to a const array does NOT leave
it a const array without aborting — the code hits the
`panic!("Attempted changing mutability of array")` arm (modelled as `none`). -/
theorem make_const_const_array_aborts :
    (VkElType.constArray (some "char") 4).make_const = none := rfl

/-- C6 (amended): `make_const` sends `Var(T)` and `Const(T)` to `Const(T)` and
`Unknown`/`Void` to `Const` with no type name set, and aborts with a panic on
every pointer and array form, const arrays included. -/
theorem make_const_spec :
    (∀ s, (VkElType.var s).make_const = some (.const s)
        ∧ (VkElType.const s).make_const = some (.const s)) ∧
    (∀ s c, (VkElType.constPtr s c).make_const = none
        ∧ (VkElType.mutPtr s c).make_const = none) ∧
    (∀ s k, (VkElType.constArray s k).make_const = none
        ∧ (VkElType.mutArray s k).make_const = none) ∧
    (∀ s e, (VkElType.constArrayEnum s e).make_const = none
        ∧ (VkElType.mutArrayEnum s e).make_const = none) ∧
    VkElType.void.make_const = some (.const none) ∧
    VkElType.unknown.make_const = some (.const none) :=
  ⟨fun _ => ⟨rfl, rfl⟩, fun _ _ => ⟨rfl, rfl⟩, fun _ _ => ⟨rfl, rfl⟩,
    fun _ _ => ⟨rfl, rfl⟩, rfl, rfl⟩

theorem popTrailingUnknown_nil : popTrailingUnknown ([] : List VkParam) = none := by
  unfold popTrailingUnknown
  rfl

theorem popTrailingUnknown_concat_unknown (l : List VkParam) (q : VkParam)
    (hq : q.typ = VkElType.unknown) :
    popTrailingUnknown (l ++ [q]) = popTrailingUnknown l := by
  rw [popTrailingUnknown]
  rw [dif_neg (by simp : ¬(l ++ [q] = []))]
  simp [List.getLast_concat, hq]

theorem popTrailingUnknown_concat_keep (l : List VkParam) (q : VkParam)
    (hq : q.typ ≠ VkElType.unknown) :
    popTrailingUnknown (l ++ [q]) = some (l ++ [q]) := by
  rw [popTrailingUnknown]
  rw [dif_neg (by simp : ¬(l ++ [q] = []))]
  simp [List.getLast_concat, hq]

theorem popTrailingUnknown_spec (ps : List VkParam)
    (hex : ∃ p ∈ ps, p.typ ≠ VkElType.unknown) :
    ∃ kept tail, popTrailingUnknown ps = some kept ∧
      ps = kept ++ tail ∧
      (∀ p ∈ tail, p.typ = VkElType.unknown) ∧
      ∃ q, kept.getLast? = some q ∧ q.typ ≠ VkElType.unknown := by
  have key : ∀ n (ps : List VkParam), ps.length ≤ n →
      (∃ p ∈ ps, p.typ ≠ VkElType.unknown) →
      ∃ kept tail, popTrailingUnknown ps = some kept ∧
        ps = kept ++ tail ∧
        (∀ p ∈ tail, p.typ = VkElType.unknown) ∧
        ∃ q, kept.getLast? = some q ∧ q.typ ≠ VkElType.unknown := by
    intro n
    induction n with
    | zero =>
      intro ps hlen hx
      have : ps = [] := List.eq_nil_of_length_eq_zero (Nat.le_zero.mp hlen)
      subst this
      simp at hx
    | succ m ih =>
      intro ps hlen hx
      rcases List.eq_nil_or_concat ps with rfl | ⟨l, q, rfl⟩
      · simp at hx
      · rw [List.concat_eq_append] at hlen hx ⊢
        by_cases hq : q.typ = VkElType.unknown
        · have hx' : ∃ p ∈ l, p.typ ≠ VkElType.unknown := by
            rcases hx with ⟨p, hp, hpt⟩
            rcases List.mem_append.mp hp with hmem | hmem
            · exact ⟨p, hmem, hpt⟩
            · rw [List.mem_singleton.mp hmem] at hpt
              exact absurd hq hpt
          have hlen' : l.length ≤ m := by
            rw [List.length_append] at hlen
            simp at hlen
            omega
          obtain ⟨kept, tail, h1, h2, h3, h4⟩ := ih l hlen' hx'
          refine ⟨kept, tail ++ [q],
            by rw [popTrailingUnknown_concat_unknown l q hq, h1],
            by rw [h2, List.append_assoc], ?_, h4⟩
          intro p hp
          rcases List.mem_append.mp hp with hmem | hmem
          · exact h3 p hmem
          · rw [List.mem_singleton.mp hmem]
            exact hq
        · exact ⟨l ++ [q], [], popTrailingUnknown_concat_keep l q hq,
            by simp, by simp, q, List.getLast?_concat l, hq⟩
  exact key ps.length ps le_rfl hex

/-- C7 counterexample: `push_command` on a present command with an empty
parameter list does NOT return a discardable failure — it aborts, because
`cmd.params.last().unwrap()` panics on the empty list (modelled as `none`,
whereas the claim asserts the call returns `some (r, false)`). -/
theorem push_command_empty_params_aborts :
    pushCommand Registry.empty
        (some { ret := VkElType.unknown, name := some "vkCmd", params := [] })
      = none := by
  simp only [pushCommand, popTrailingUnknown_nil]

/-- C7 (amended): `push_command` on the absent (`None`) command silently drops
it — a discardable failure with the registry, commands map included, left
unchanged — while a present command whose parameter list is empty instead
aborts with a panic. -/
theorem push_command_empty_spec :
    (∀ r, pushCommand r none = some (r, false)) ∧
    (∀ r cmd, cmd.params = [] → pushCommand r (some cmd) = none) := by
  refine ⟨fun r => rfl, fun r cmd h => ?_⟩
  simp only [pushCommand, h, popTrailingUnknown_nil]

theorem push_command_empty_spec_holds :
    ({ ret := VkElType.unknown, name := some "vkCmd", params := [] }
        : VkCommand).params = [] ∧
    pushCommand Registry.empty none = some (Registry.empty, false) ∧
    pushCommand Registry.empty
        (some { ret := VkElType.unknown, name := some "vkCmd", params := [] })
      = none :=
  ⟨rfl, push_command_empty_spec.1 Registry.empty,
    push_command_empty_spec.2 Registry.empty
      { ret := VkElType.unknown, name := some "vkCmd", params := [] } rfl⟩

/-- C4 (code bug): evaluating the struct generator's `load_with` at a
resolver that returns null for its single command: the function returns only
the `Vk` value — there is no success/unresolved-names result in its type —
and the null-resolved slot is left as uninitialized memory (`none`), not the
abort sentinel, contrary to the claim and to the crate's own documentation of
the struct generator in `registry/mod.rs` (`Vk::new()` plus
`load_with -> Result<(), Vec<&str>>`). -/
theorem load_with_null_resolver_uninit :
    load_with ["vkCreateInstance"] (fun _ => RawPtr.null)
        = [("vkCreateInstance", none)] ∧
    (none : Option RawPtr) ≠ some RawPtr.sentinel :=
  ⟨rfl, by simp⟩

/-- C5: on re-invocation of the loader, `reload_fns` overwrites a slot only
when the resolver returns a non-null pointer for that slot's command name;
every slot for which the resolver returns null keeps exactly the value it
held before the call. -/
theorem reload_fns_overwrites_only_nonnull
    (slots : List (String × RawPtr)) (resolver : String → RawPtr) :
    List.Forall₂ (fun after before =>
        (resolver before.1 = RawPtr.null → after = before) ∧
        (resolver before.1 ≠ RawPtr.null → after = (before.1, resolver before.1)))
      (reload_fns slots resolver).1 slots := by
  induction slots with
  | nil => exact List.Forall₂.nil
  | cons hd rest ih =>
    obtain ⟨n, old⟩ := hd
    unfold reload_fns
    by_cases hres : resolver n = RawPtr.null
    · rw [if_neg (by simp [hres])]
      by_cases hold : old = RawPtr.sentinel
      · rw [if_neg (by simp [hold])]
        exact List.Forall₂.cons ⟨fun _ => rfl, fun hn => absurd hres hn⟩ ih
      · rw [if_pos hold]
        exact List.Forall₂.cons ⟨fun _ => rfl, fun hn => absurd hres hn⟩ ih
    · rw [if_pos hres]
      exact List.Forall₂.cons ⟨fun h => absurd h hres, fun _ => rfl⟩ ih

/-- C3: for every command with at least one non-`Unknown`-typed parameter,
`push_command` stores the command with exactly the trailing `Unknown`-typed
parameters removed: the stored list `kept` is a prefix of the original whose
removed suffix is all `Unknown` and whose own last parameter is not `Unknown`
— so no stored command's parameter list ends with `Unknown`. -/
theorem push_command_trims_trailing_unknown (r : Registry) (cmd : VkCommand)
    (n : String) (hname : cmd.name = some n)
    (hex : ∃ p ∈ cmd.params, p.typ ≠ VkElType.unknown) :
    ∃ kept tail,
      pushCommand r (some cmd)
        = some ({r with
                  commands := mapInsert n {cmd with params := kept} r.commands},
                true) ∧
      cmd.params = kept ++ tail ∧
      (∀ p ∈ tail, p.typ = VkElType.unknown) ∧
      (∃ q, kept.getLast? = some q ∧ q.typ ≠ VkElType.unknown) := by
  obtain ⟨kept, tail, h1, h2, h3, h4⟩ := popTrailingUnknown_spec cmd.params hex
  refine ⟨kept, tail, ?_, h2, h3, h4⟩
  simp only [pushCommand, h1, hname]

theorem push_command_trims_trailing_unknown_holds :
    ({ ret := VkElType.void, name := some "vkFoo",
       params := [{ typ := VkElType.var (some "T"), name := some "a" },
                  { typ := VkElType.unknown, name := none }] } : VkCommand).name
        = some "vkFoo" ∧
    (∃ p ∈ ({ ret := VkElType.void, name := some "vkFoo",
              params := [{ typ := VkElType.var (some "T"), name := some "a" },
                         { typ := VkElType.unknown, name := none }] }
            : VkCommand).params, p.typ ≠ VkElType.unknown) ∧
    ∃ kept tail,
      pushCommand Registry.empty
          (some { ret := VkElType.void, name := some "vkFoo",
                  params := [{ typ := VkElType.var (some "T"), name := some "a" },
                             { typ := VkElType.unknown, name := none }] })
        = some ({Registry.empty with
                  commands := mapInsert "vkFoo"
                    { ret := VkElType.void, name := some "vkFoo", params := kept }
                    Registry.empty.commands},
                true) ∧
      [({ typ := VkElType.var (some "T"), name := some "a" } : VkParam),
       { typ := VkElType.unknown, name := none }] = kept ++ tail ∧
      (∀ p ∈ tail, p.typ = VkElType.unknown) ∧
      (∃ q, kept.getLast? = some q ∧ q.typ ≠ VkElType.unknown) :=
  ⟨rfl, ⟨{ typ := VkElType.var (some "T"), name := some "a" }, by simp, by simp⟩,
    push_command_trims_trailing_unknown Registry.empty _ "vkFoo" rfl
      ⟨{ typ := VkElType.var (some "T"), name := some "a" }, by simp, by simp⟩⟩

theorem pushTypeConsts_types (r : Registry) (t : VkType) (n : String) :
    (pushTypeConsts r t n).types = r.types := by
  cases t <;> rfl

theorem pushTypeConsts_commands (r : Registry) (t : VkType) (n : String) :
    (pushTypeConsts r t n).commands = r.commands := by
  cases t <;> rfl

theorem pushTypeConsts_core (r : Registry) (t : VkType) (n : String) :
    (pushTypeConsts r t n).core_consts
      = (match t with
         | VkType.apiConst _ _ => r.core_consts ++ [n]
         | _ => r.core_consts) := by
  cases t <;> rfl

theorem pushType_eq (r : Registry) (t : VkType) (n : String)
    (h : t.namePtr = some (some n)) :
    pushType r t =
      if n = "API Constants" then some (pushTypeConsts r t n, false)
      else some ({pushTypeConsts r t n with
                    types := mapInsert n t (pushTypeConsts r t n).types},
                 true) := by
  cases t <;>
    first
      | exact Option.noConfusion h
      | (simp only [VkType.namePtr, Option.some.injEq] at h
         subst h
         simp only [pushType, pushTypeConsts, VkType.namePtr])

/-- C2: `push_type` returns a discardable failure exactly on `Unhandled` and
on types named `"API Constants"`, inserting nothing into the types map in
those cases; every other type is inserted into the types map under its name
with success; and every `ApiConst` argument has its name appended to the
core-constants list (all other arguments leave it unchanged). -/
theorem push_type_spec (r : Registry) :
    pushType r VkType.unhandled = some (r, false) ∧
    ∀ t n, t.namePtr = some (some n) →
      ∃ r1 ok, pushType r t = some (r1, ok) ∧
        (ok = false ↔ n = "API Constants") ∧
        r1.types = (if n = "API Constants" then r.types
                    else mapInsert n t r.types) ∧
        r1.commands = r.commands ∧
        r1.core_consts = (match t with
                          | VkType.apiConst _ _ => r.core_consts ++ [n]
                          | _ => r.core_consts) := by
  refine ⟨rfl, fun t n h => ?_⟩
  by_cases hn : n = "API Constants"
  · refine ⟨pushTypeConsts r t n, false, ?_, by simp [hn], ?_, ?_, ?_⟩
    · rw [pushType_eq r t n h, if_pos hn]
    · rw [if_pos hn, pushTypeConsts_types]
    · exact pushTypeConsts_commands r t n
    · exact pushTypeConsts_core r t n
  · refine ⟨{pushTypeConsts r t n with
               types := mapInsert n t (pushTypeConsts r t n).types}, true,
            ?_, by simp [hn], ?_, ?_, ?_⟩
    · rw [pushType_eq r t n h, if_neg hn]
    · show mapInsert n t (pushTypeConsts r t n).types = _
      rw [if_neg hn, pushTypeConsts_types]
    · exact pushTypeConsts_commands r t n
    · exact pushTypeConsts_core r t n

theorem push_type_spec_holds :
    (VkType.apiConst (some "VK_LOD_CLAMP_NONE") (some "1000.0")).namePtr
        = some (some "VK_LOD_CLAMP_NONE") ∧
    pushType Registry.empty VkType.unhandled = some (Registry.empty, false) ∧
    ∃ r1 ok,
      pushType Registry.empty
          (VkType.apiConst (some "VK_LOD_CLAMP_NONE") (some "1000.0"))
        = some (r1, ok) ∧
      (ok = false ↔ "VK_LOD_CLAMP_NONE" = "API Constants") ∧
      r1.types = (if "VK_LOD_CLAMP_NONE" = "API Constants" then Registry.empty.types
                  else mapInsert "VK_LOD_CLAMP_NONE"
                    (VkType.apiConst (some "VK_LOD_CLAMP_NONE") (some "1000.0"))
                    Registry.empty.types) ∧
      r1.commands = Registry.empty.commands ∧
      r1.core_consts = Registry.empty.core_consts ++ ["VK_LOD_CLAMP_NONE"] :=
  ⟨rfl, (push_type_spec Registry.empty).1,
    (push_type_spec Registry.empty).2
      (VkType.apiConst (some "VK_LOD_CLAMP_NONE") (some "1000.0"))
      "VK_LOD_CLAMP_NONE" rfl⟩

theorem appendAll_stable : ∀ (ss : List (List Char)) (a : Arena),
    a.buf.length + (ss.map List.length).sum ≤ a.cap →
    ∃ vs, a.appendAll ss = some (⟨a.cap, a.buf ++ ss.flatten⟩, vs) ∧
      List.Forall₂ (fun (v : Nat × Nat) s =>
          Arena.readView ⟨a.cap, a.buf ++ ss.flatten⟩ v.1 v.2 = s) vs ss := by
  intro ss
  induction ss with
  | nil =>
    intro a h
    refine ⟨[], ?_, List.Forall₂.nil⟩
    obtain ⟨cap, buf⟩ := a
    simp [Arena.appendAll]
  | cons s ss ih =>
    intro a h
    simp only [List.map_cons, List.sum_cons] at h
    have hstep : a.append_str s
        = some (⟨a.cap, a.buf ++ s⟩, a.buf.length, s.length) := by
      unfold Arena.append_str
      rw [if_neg (by simp only [List.length_append]; omega)]
    obtain ⟨vs, h1, h2⟩ := ih ⟨a.cap, a.buf ++ s⟩
      (by simp only [List.length_append]; omega)
    have hbuf : a.buf ++ (s :: ss).flatten = (a.buf ++ s) ++ ss.flatten := by
      simp [List.flatten_cons]
    refine ⟨(a.buf.length, s.length) :: vs, ?_, ?_⟩
    · unfold Arena.appendAll
      rw [hstep, hbuf]
      show (match ({ cap := a.cap, buf := a.buf ++ s } : Arena).appendAll ss with
            | none => none
            | some (af, vs) => some (af, (a.buf.length, s.length) :: vs))
          = some (({ cap := a.cap, buf := a.buf ++ s ++ ss.flatten } : Arena),
                  (a.buf.length, s.length) :: vs)
      rw [h1]
    · refine List.Forall₂.cons ?_ ?_
      · unfold Arena.readView
        show ((a.buf ++ (s :: ss).flatten).drop a.buf.length).take s.length = s
        rw [show a.buf ++ (s :: ss).flatten = a.buf ++ (s ++ ss.flatten) from
              by simp [List.flatten_cons],
            List.drop_left, List.take_left]
      · rw [hbuf]
        exact h2

/-- C1: starting from the buffer reserved at registry creation, any sequence
of `append_str` calls whose cumulative length is at most the reserved
capacity succeeds, and each returned view reads back, in the final arena
(i.e. after all later appends), exactly the bytes of its argument string;
while any single push that would move the buffer past its capacity (a
reallocation) panics instead. -/
theorem append_str_stable_views (xmlLen : Nat) (ss : List (List Char))
    (hcap : (ss.map List.length).sum ≤ xmlLen) :
    (∃ af vs, (Arena.init xmlLen).appendAll ss = some (af, vs) ∧
       List.Forall₂ (fun (v : Nat × Nat) s => af.readView v.1 v.2 = s) vs ss) ∧
    (∀ (a : Arena) (s : List Char), a.cap < a.buf.length + s.length →
       a.append_str s = none) := by
  constructor
  · obtain ⟨vs, h1, h2⟩ := appendAll_stable ss (Arena.init xmlLen)
      (by simpa [Arena.init] using hcap)
    exact ⟨_, vs, h1, h2⟩
  · intro a s hlt
    unfold Arena.append_str
    rw [if_pos (by simp only [List.length_append]; omega)]

theorem append_str_stable_views_holds :
    (([['a'], ['b']] : List (List Char)).map List.length).sum ≤ 2 ∧
    ((∃ af vs, (Arena.init 2).appendAll [['a'], ['b']] = some (af, vs) ∧
        List.Forall₂ (fun (v : Nat × Nat) s => af.readView v.1 v.2 = s) vs
          [['a'], ['b']]) ∧
      (∀ (a : Arena) (s : List Char), a.cap < a.buf.length + s.length →
        a.append_str s = none)) :=
  ⟨by decide, append_str_stable_views 2 [['a'], ['b']] (by decide)⟩

end VkRs
